import Mathlib

/-!
Shallow embedding of the deep-context memory core: the SQLite-backed
`MemoryStore` (src/memory/store.ts), the `MemoryRetriever`
(src/memory/retriever.ts), the `ContextBuilder` (src/context/builder.ts)
and the hash-based fallback `SimpleEmbedder` (src/memory/embeddings.ts),
together with proofs of the behavioural properties claimed by the spec.

Modelling conventions:
* JavaScript numbers are modelled as real numbers (`ℝ`); timestamps
  (`datetime('now')`) and generated ids (`nanoid()`) are external inputs,
  so store mutations take them as explicit arguments.
* A SQLite table is modelled as a Lean list of rows; `sqlite3_changes`
  of an `UPDATE` counts the rows matched by the `WHERE` clause.
* The type-specific `metadata` JSON column is modelled in its parsed form
  (the tagged union of src/memory/types.ts), which is what `rowToMemory`
  produces and the rest of the code consumes.
-/

namespace DeepContext

/-- `MemoryType` from src/memory/types.ts. -/
inductive MemoryType
| constraint
| decision
| heuristic
deriving DecidableEq

/-- `MemorySource` from src/memory/types.ts. -/
inductive MemorySource
| user
| auto
| git
deriving DecidableEq

/-- `FrictionEventType` from src/memory/types.ts. -/
inductive FrictionEventType
| iteration
| correction
| revert
| rejection
| acceptance
deriving DecidableEq

/-- Constraint severity (`'error' | 'warning'`). -/
inductive Severity
| error
| warning
deriving DecidableEq

/-- Heuristic strength (`'strong' | 'moderate' | 'weak'`). -/
inductive Strength
| strong
| moderate
| weak
deriving DecidableEq

/-- The variant-specific fields of the three memory kinds, i.e. the parsed
form of the `metadata` JSON column (`rowToMemory` in store.ts). -/
inductive VariantData
| constraintData (scope : Option String) (severity : Severity)
| decisionData (alternatives : Option (List String)) (rationale : String)
    (relatedFiles : Option (List String))
| heuristicData (applicableWhen : Option String) (strength : Strength)
deriving DecidableEq

/-- One row of the `memory_items` table, in the parsed `MemoryItem` shape of
src/memory/types.ts. -/
structure MemoryItem where
  id : String
  content : String
  context : Option String
  source : MemorySource
  frictionScore : ℝ
  createdAt : Nat
  updatedAt : Nat
  active : Bool
  data : VariantData

/-- The discriminant `type` field of a `MemoryItem`. -/
def MemoryItem.type (m : MemoryItem) : MemoryType :=
  match m.data with
  | .constraintData _ _ => .constraint
  | .decisionData _ _ _ => .decision
  | .heuristicData _ _ => .heuristic

/-- One row of the `friction_events` table. -/
structure FrictionEvent where
  id : String
  memoryId : String
  eventType : FrictionEventType
  delta : ℝ
  context : Option String
  createdAt : Nat

/-- The persistent state of a `MemoryStore`: the `memory_items`,
`memory_embeddings` and `friction_events` tables.  (The `sessions` tables are
pure bookkeeping, never read by retrieval, and are not modelled.) -/
structure MemoryStore where
  items : List MemoryItem
  embeddings : List (String × List ℝ)
  events : List FrictionEvent

/-- A freshly migrated store is empty. -/
def initialStore : MemoryStore := ⟨[], [], []⟩

/-- `EMBEDDING_DIM` from store.ts. -/
def EMBEDDING_DIM : Nat := 384

/-- `CreateConstraintInput` from src/memory/types.ts. -/
structure CreateConstraintInput where
  content : String
  context : Option String := none
  source : Option MemorySource := none
  scope : Option String := none
  severity : Option Severity := none

/-- `CreateDecisionInput` from src/memory/types.ts. -/
structure CreateDecisionInput where
  content : String
  context : Option String := none
  source : Option MemorySource := none
  alternatives : Option (List String) := none
  rationale : String
  relatedFiles : Option (List String) := none

/-- `CreateHeuristicInput` from src/memory/types.ts. -/
structure CreateHeuristicInput where
  content : String
  context : Option String := none
  source : Option MemorySource := none
  applicableWhen : Option String := none
  strength : Option Strength := none

/-- `MemoryStore.setEmbedding`: rejects any vector whose length differs from
`EMBEDDING_DIM`, otherwise performs `INSERT OR REPLACE` into
`memory_embeddings`. -/
def MemoryStore.setEmbedding (s : MemoryStore) (id : String) (embedding : List ℝ) :
    Except String MemoryStore :=
  if embedding.length ≠ EMBEDDING_DIM then
    .error ("Embedding dimension mismatch: expected " ++ toString EMBEDDING_DIM
      ++ ", got " ++ toString embedding.length)
  else
    .ok { s with
      embeddings := (s.embeddings.filter fun p => !(p.1 == id)) ++ [(id, embedding)] }

/-- `MemoryStore.getEmbedding`: looks up the blob and checks that its byte
length corresponds to exactly `EMBEDDING_DIM` Float32 entries. -/
def MemoryStore.getEmbedding (s : MemoryStore) (id : String) : Option (List ℝ) :=
  match s.embeddings.find? fun p => p.1 == id with
  | none => none
  | some p => if p.2.length = EMBEDDING_DIM then some p.2 else none

/-- The `memory_items` row inserted by `addConstraint`: `frictionScore` 0,
`active` 1, defaults `source = 'user'`, `severity = 'warning'`. -/
def mkConstraintItem (id : String) (now : Nat) (input : CreateConstraintInput) :
    MemoryItem :=
  { id := id, content := input.content, context := input.context,
    source := input.source.getD .user, frictionScore := 0,
    createdAt := now, updatedAt := now, active := true,
    data := .constraintData input.scope (input.severity.getD .warning) }

/-- The row inserted by `addDecision`. -/
def mkDecisionItem (id : String) (now : Nat) (input : CreateDecisionInput) :
    MemoryItem :=
  { id := id, content := input.content, context := input.context,
    source := input.source.getD .user, frictionScore := 0,
    createdAt := now, updatedAt := now, active := true,
    data := .decisionData input.alternatives input.rationale input.relatedFiles }

/-- The row inserted by `addHeuristic`: default `strength = 'moderate'`. -/
def mkHeuristicItem (id : String) (now : Nat) (input : CreateHeuristicInput) :
    MemoryItem :=
  { id := id, content := input.content, context := input.context,
    source := input.source.getD .user, frictionScore := 0,
    createdAt := now, updatedAt := now, active := true,
    data := .heuristicData input.applicableWhen (input.strength.getD .moderate) }

/-- `MemoryStore.addConstraint`.  The row is inserted first; if an embedding is
supplied, `setEmbedding` runs afterwards (outside any transaction), so a
dimension error leaves the inserted row in place.  Returns the new state and
the error message, if any. -/
def MemoryStore.addConstraint (s : MemoryStore) (id : String) (now : Nat)
    (input : CreateConstraintInput) (embedding : Option (List ℝ)) :
    MemoryStore × Option String :=
  let s' : MemoryStore := { s with items := s.items ++ [mkConstraintItem id now input] }
  match embedding with
  | none => (s', none)
  | some v =>
    match s'.setEmbedding id v with
    | .ok s'' => (s'', none)
    | .error e => (s', some e)

/-- `MemoryStore.addDecision`. -/
def MemoryStore.addDecision (s : MemoryStore) (id : String) (now : Nat)
    (input : CreateDecisionInput) (embedding : Option (List ℝ)) :
    MemoryStore × Option String :=
  let s' : MemoryStore := { s with items := s.items ++ [mkDecisionItem id now input] }
  match embedding with
  | none => (s', none)
  | some v =>
    match s'.setEmbedding id v with
    | .ok s'' => (s'', none)
    | .error e => (s', some e)

/-- `MemoryStore.addHeuristic`. -/
def MemoryStore.addHeuristic (s : MemoryStore) (id : String) (now : Nat)
    (input : CreateHeuristicInput) (embedding : Option (List ℝ)) :
    MemoryStore × Option String :=
  let s' : MemoryStore := { s with items := s.items ++ [mkHeuristicItem id now input] }
  match embedding with
  | none => (s', none)
  | some v =>
    match s'.setEmbedding id v with
    | .ok s'' => (s'', none)
    | .error e => (s', some e)

/-- `MemoryStore.getById`: `SELECT * FROM memory_items WHERE id = ? AND active = 1`. -/
def MemoryStore.getById (s : MemoryStore) (id : String) : Option MemoryItem :=
  s.items.find? fun m => m.id == id && m.active

/-- `MemoryStore.getByType`:
`SELECT * FROM memory_items WHERE type = ? AND active = 1 ORDER BY created_at DESC`. -/
def MemoryStore.getByType (s : MemoryStore) (t : MemoryType) : List MemoryItem :=
  (s.items.filter fun m => decide (m.type = t) && m.active).mergeSort
    fun a b => decide (b.createdAt ≤ a.createdAt)

/-- `MemoryStore.getAllConstraints`. -/
def MemoryStore.getAllConstraints (s : MemoryStore) : List MemoryItem :=
  s.getByType .constraint

/-- `MemoryStore.delete` (soft delete):
`UPDATE memory_items SET active = 0, updated_at = datetime('now') WHERE id = ?`,
returning `changes > 0`, i.e. whether any row matched the `WHERE` clause. -/
def MemoryStore.delete (s : MemoryStore) (id : String) (now : Nat) :
    MemoryStore × Bool :=
  ({ s with items := s.items.map fun m =>
      if m.id == id then { m with active := false, updatedAt := now } else m },
    s.items.any fun m => m.id == id)

/-- `MemoryStore.hardDelete`: `DELETE FROM memory_items WHERE id = ?`.
(Embeddings and events cascade via `ON DELETE CASCADE`.) -/
def MemoryStore.hardDelete (s : MemoryStore) (id : String) :
    MemoryStore × Bool :=
  ({ s with
      items := s.items.filter (fun m => !(m.id == id)),
      embeddings := s.embeddings.filter (fun p => !(p.1 == id)),
      events := s.events.filter (fun e => !(e.memoryId == id)) },
    s.items.any fun m => m.id == id)

/-- The per-event score update of `recordFrictionEvent`:
`MAX(-10, MIN(10, friction_score + delta))`. -/
noncomputable def clampScore (x : ℝ) : ℝ := max (-10) (min 10 x)

/-- `MemoryStore.recordFrictionEvent`: inside one transaction, appends the
event row and updates the memory's score to
`MAX(-10, MIN(10, friction_score + delta))`. -/
noncomputable def MemoryStore.recordFrictionEvent (s : MemoryStore)
    (eventId memoryId : String) (eventType : FrictionEventType) (delta : ℝ)
    (context : Option String) (now : Nat) : MemoryStore :=
  { s with
    events := s.events ++ [⟨eventId, memoryId, eventType, delta, context, now⟩],
    items := s.items.map (fun m =>
      if m.id == memoryId then
        { m with frictionScore := clampScore (m.frictionScore + delta), updatedAt := now }
      else m) }

/-- `MemoryStore.applyFrictionDecay`: multiplies every non-zero score by
`0.5 ^ (1 / halfLifeDays)` and returns the number of changed rows. -/
noncomputable def MemoryStore.applyFrictionDecay (s : MemoryStore)
    (halfLifeDays : ℝ) (now : Nat) : MemoryStore × Nat :=
  let decayFactor : ℝ := (0.5 : ℝ) ^ ((1 : ℝ) / halfLifeDays)
  ({ s with items := s.items.map fun m =>
      if m.frictionScore ≠ 0 then
        { m with frictionScore := m.frictionScore * decayFactor, updatedAt := now }
      else m },
    (s.items.filter fun m => decide (m.frictionScore ≠ 0)).length)

/-- The dot product loop of `cosineSimilarity`, which iterates over the
indices of the first vector (out-of-range reads of `b` are modelled as 0). -/
noncomputable def dotOver (a b : List ℝ) : ℝ :=
  ∑ i ∈ Finset.range a.length, a.getD i 0 * b.getD i 0

/-- `MemoryStore.cosineSimilarity`: one loop over the indices of `a`
accumulates `dotProduct`, `normA` and `normB`; the result is
`dot / (sqrt normA * sqrt normB)`, defined as 0 when the denominator is 0. -/
noncomputable def cosineSimilarity (a b : List ℝ) : ℝ :=
  let dotProduct := ∑ i ∈ Finset.range a.length, a.getD i 0 * b.getD i 0
  let normA := ∑ i ∈ Finset.range a.length, a.getD i 0 * a.getD i 0
  let normB := ∑ i ∈ Finset.range a.length, b.getD i 0 * b.getD i 0
  let denominator := Real.sqrt normA * Real.sqrt normB
  if denominator = 0 then 0 else dotProduct / denominator

/-- `VectorSearchOptions` from src/memory/types.ts. -/
structure VectorSearchOptions where
  limit : Nat
  types : Option (List MemoryType) := none

/-- A `{memory, similarity}` pair returned by `vectorSearch`. -/
structure SearchHit where
  memory : MemoryItem
  similarity : ℝ

/-- `MemoryStore.vectorSearch`: joins active memories with their embeddings
(optionally restricted to the given non-empty list of types), scores each one
by cosine similarity to the query, sorts descending by similarity and takes
the top `limit`. -/
noncomputable def MemoryStore.vectorSearch (s : MemoryStore)
    (queryEmbedding : List ℝ) (options : VectorSearchOptions) : List SearchHit :=
  let typeOk : MemoryItem → Bool := fun m =>
    match options.types with
    | some ts => if ts.isEmpty then true else decide (m.type ∈ ts)
    | none => true
  let rows := s.items.filterMap fun m =>
    if m.active && typeOk m then
      match s.embeddings.find? fun p => p.1 == m.id with
      | some p => some (m, p.2)
      | none => none
    else none
  let results := rows.map fun r =>
    { memory := r.1, similarity := cosineSimilarity queryEmbedding r.2 : SearchHit }
  (results.mergeSort fun a b => decide (b.similarity ≤ a.similarity)).take options.limit

/-- `RetrievalResult` from src/memory/types.ts. -/
structure RetrievalResult where
  memory : MemoryItem
  similarity : ℝ
  adjustedScore : ℝ

/-- `RetrievalOptions` from src/memory/types.ts, with the defaults filled in
by `MemoryRetriever.retrieve`.  A single `type` is normalised by `retrieve`
to a one-element array, so the field is modelled as an optional list. -/
structure RetrievalOptions where
  type : Option (List MemoryType) := none
  limit : Nat := 10
  minSimilarity : ℝ := 0.3
  includeFriction : Bool := true

/-- `MemoryRetriever.applyFrictionModifier`:
`similarity * (1 + 0.5 * tanh(friction / 3))`. -/
noncomputable def applyFrictionModifier (similarity friction : ℝ) : ℝ :=
  similarity * (1 + 0.5 * Real.tanh (friction / 3))

/-- `MemoryRetriever.retrieve`: embeds the query, over-fetches
`limit * 3` candidates from `vectorSearch`, discards candidates below
`minSimilarity`, re-ranks by the friction-adjusted score, sorts descending
and truncates to `limit`.  The `MemoryRetriever` instance fields (its store
and its `Embedder`) are explicit arguments. -/
noncomputable def retrieve (store : MemoryStore) (embedder : String → List ℝ)
    (query : String) (options : RetrievalOptions) : List RetrievalResult :=
  let queryEmbedding := embedder query
  let candidates := store.vectorSearch queryEmbedding
    { limit := options.limit * 3, types := options.type }
  let kept := candidates.filter fun c => decide (options.minSimilarity ≤ c.similarity)
  let results : List RetrievalResult := kept.map fun c =>
    { memory := c.memory, similarity := c.similarity,
      adjustedScore :=
        if options.includeFriction then
          applyFrictionModifier c.similarity c.memory.frictionScore
        else c.similarity }
  (results.mergeSort fun a b => decide (b.adjustedScore ≤ a.adjustedScore)).take
    options.limit

/-- `MemoryRetriever.retrieveDecisions`:
`retrieve(query, {type: 'decision', limit, minSimilarity: 0.4})`. -/
noncomputable def retrieveDecisions (store : MemoryStore)
    (embedder : String → List ℝ) (query : String) (limit : Nat) :
    List RetrievalResult :=
  retrieve store embedder query
    { type := some [.decision], limit := limit, minSimilarity := 0.4 }

/-- `MemoryRetriever.retrieveHeuristics`:
`retrieve(query, {type: 'heuristic', limit, minSimilarity: 0.35})`. -/
noncomputable def retrieveHeuristics (store : MemoryStore)
    (embedder : String → List ℝ) (query : String) (limit : Nat) :
    List RetrievalResult :=
  retrieve store embedder query
    { type := some [.heuristic], limit := limit, minSimilarity := 0.35 }

/-- `MemoryRetriever.search`:
`retrieve(query, {type, limit ?? 10, minSimilarity: 0.2})`. -/
noncomputable def searchMemories (store : MemoryStore)
    (embedder : String → List ℝ) (query : String)
    (type : Option (List MemoryType)) (limit : Option Nat) :
    List RetrievalResult :=
  retrieve store embedder query
    { type := type, limit := limit.getD 10, minSimilarity := 0.2 }

/-- ASCII lower-casing of one character, the canonicalisation performed by a
case-insensitive JavaScript regex over ASCII patterns. -/
def lowerChar (c : Char) : Char :=
  if 'A' ≤ c && c ≤ 'Z' then Char.ofNat (c.toNat + 32) else c

/-- Substring test over character lists (`/literal/` regex matching). -/
def hasSub : List Char → List Char → Bool
  | needle, [] => needle.isEmpty
  | needle, c :: rest => needle.isPrefixOf (c :: rest) || hasSub needle rest

/-- JavaScript line terminators, which `.` in a regex never matches. -/
def isLineTerm (c : Char) : Bool :=
  c == '\n' || c == '\r' || c == '\u2028' || c == '\u2029'

/-- Splits a character list at every line terminator: the maximal runs that a
`.*` can span. -/
def splitLines : List Char → List Char → List (List Char)
  | [], acc => [acc.reverse]
  | c :: rest, acc =>
    if isLineTerm c then acc.reverse :: splitLines rest []
    else splitLines rest (c :: acc)

/-- `/either.*or/` restricted to a single terminator-free run: some
occurrence of `either` followed (on the same line) by `or`. -/
def eitherOrLine : List Char → Bool
  | [] => false
  | c :: rest =>
    ((['e', 'i', 't', 'h', 'e', 'r'].isPrefixOf (c :: rest)) &&
      hasSub ['o', 'r'] ((c :: rest).drop 6)) || eitherOrLine rest

/-- The apostrophe character used in two of the ambiguity patterns. -/
def apos : Char := '\''

/-- `MemoryRetriever.detectsAmbiguity`: a fixed list of regex tests over the
prompt.  All patterns are ASCII-literal except the alternations (expanded to
the finitely many literals they denote), `/\?.*\?/` (two question marks on
one line) and `/either.*or/i`. -/
def detectsAmbiguity (prompt : String) : Bool :=
  let p := prompt.data.map lowerChar
  let lines := splitLines p []
  hasSub ("should i").data p ||
  hasSub (("what").data ++ [apos] ++ ("s best").data) p ||
  hasSub (("what").data ++ [apos] ++ ("s the best").data) p ||
  hasSub ("what is best").data p ||
  hasSub ("what is the best").data p ||
  hasSub ("how should").data p ||
  hasSub ("which one").data p ||
  hasSub ("which approach").data p ||
  hasSub ("which method").data p ||
  hasSub ("which way").data p ||
  hasSub ("recommend").data p ||
  hasSub ("prefer").data p ||
  hasSub ("or should").data p ||
  hasSub ("better to").data p ||
  hasSub ("what do you think").data p ||
  hasSub ("would you suggest").data p ||
  lines.any (fun line => 2 ≤ line.countP (fun c => c == '?')) ||
  lines.any eitherOrLine ||
  hasSub ("tradeoff").data p ||
  hasSub ("trade-off").data p

/-- The options record of `MemoryRetriever.retrieveForContext`, defaults
filled in. -/
structure ContextRetrievalOptions where
  maxDecisions : Nat := 5
  maxHeuristics : Nat := 3
  includeHeuristics : Option Bool := none

/-- The result record of `MemoryRetriever.retrieveForContext`. -/
structure ContextRetrieval where
  constraints : List MemoryItem
  decisions : List RetrievalResult
  heuristics : List RetrievalResult
  isAmbiguous : Bool

/-- `MemoryRetriever.retrieveForContext`: all constraints, relevant
decisions, and heuristics exactly when
`includeHeuristics === true || (includeHeuristics !== false && isAmbiguous)`. -/
noncomputable def retrieveForContext (store : MemoryStore)
    (embedder : String → List ℝ) (prompt : String)
    (options : ContextRetrievalOptions) : ContextRetrieval :=
  let constraints := store.getAllConstraints
  let decisions := retrieveDecisions store embedder prompt options.maxDecisions
  let isAmbiguous := detectsAmbiguity prompt
  let heuristics :=
    if (options.includeHeuristics == some true) ||
        (options.includeHeuristics != some false && isAmbiguous) then
      retrieveHeuristics store embedder prompt options.maxHeuristics
    else []
  ⟨constraints, decisions, heuristics, isAmbiguous⟩

/-- Message roles of the chat adapters (src/adapters/openai.ts). -/
inductive Role
| system
| user
| assistant
deriving DecidableEq

/-- `Message` from src/adapters/openai.ts. -/
structure Message where
  role : Role
  content : String

/-- `estimateTokens`: `Math.ceil(text.length / 4)`. -/
def estimateTokens (text : String) : Nat := (text.length + 3) / 4

/-- `ContextConfig` from src/context/builder.ts. -/
structure ContextConfig where
  maxTokens : Nat
  systemTokens : Nat
  constraintTokens : Nat
  conversationTokens : Nat
  decisionTokens : Nat
  heuristicTokens : Nat

/-- `DEFAULT_CONTEXT_CONFIG`. -/
def DEFAULT_CONTEXT_CONFIG : ContextConfig :=
  { maxTokens := 8000, systemTokens := 500, constraintTokens := 1000,
    conversationTokens := 3000, decisionTokens := 2000, heuristicTokens := 500 }

/-- `Number.prototype.toFixed(0)`: render to the nearest integer, ties away
from zero.  Never evaluated by any proof; present only so that the formatting
functions below are total Lean terms. -/
noncomputable def jsToFixed0 (x : ℝ) : String :=
  if 0 ≤ x then toString ⌊x + 1 / 2⌋ else "-" ++ toString ⌊-x + 1 / 2⌋

/-- `formatMemoryForContext` from src/memory/retriever.ts.  JavaScript
truthiness makes the optional annotation lines appear only for non-empty
strings / non-empty arrays. -/
def formatMemoryForContext (memory : MemoryItem) : String :=
  let body : List String :=
    match memory.data with
    | .constraintData scope _ =>
      ["[CONSTRAINT] " ++ memory.content] ++
        (match scope with
         | some sc => if sc = "" then [] else ["  Scope: " ++ sc]
         | none => [])
    | .decisionData alternatives rationale _ =>
      ["[DECISION] " ++ memory.content] ++
        (if rationale = "" then [] else ["  Rationale: " ++ rationale]) ++
        (match alternatives with
         | some alts =>
           if alts.length > 0 then
             ["  Alternatives considered: " ++ String.intercalate ", " alts]
           else []
         | none => [])
    | .heuristicData applicableWhen _ =>
      ["[HEURISTIC] " ++ memory.content] ++
        (match applicableWhen with
         | some aw => if aw = "" then [] else ["  Applicable when: " ++ aw]
         | none => [])
  let withCtx := body ++
    (match memory.context with
     | some c => if c = "" then [] else ["  Context: " ++ c]
     | none => [])
  String.intercalate "\n" withCtx

/-- `formatMemoriesForContext` from src/memory/retriever.ts. -/
noncomputable def formatMemoriesForContext (constraints : List MemoryItem)
    (decisions heuristics : List RetrievalResult) : String :=
  let sections : List String :=
    (if constraints.length > 0 then
      ["## Project Constraints (Always Apply)",
        String.intercalate "\n\n" (constraints.map formatMemoryForContext)]
     else []) ++
    (if decisions.length > 0 then
      ["## Relevant Past Decisions",
        String.intercalate "\n\n" (decisions.map fun d =>
          formatMemoryForContext d.memory ++ " (relevance: " ++
            jsToFixed0 (d.adjustedScore * 100) ++ "%)")]
     else []) ++
    (if heuristics.length > 0 then
      ["## Applicable Heuristics",
        String.intercalate "\n\n" (heuristics.map fun h =>
          formatMemoryForContext h.memory)]
     else [])
  String.intercalate "\n\n" sections

/-- `ContextBuilder.buildSystemPrompt`. -/
noncomputable def buildSystemPrompt (constraints : List MemoryItem)
    (decisions heuristics : List RetrievalResult) : String :=
  let base := "You are Deep Context, an AI coding assistant with persistent memory.\nYou remember past decisions and constraints for this project.\nAlways consider the project context when giving advice."
  let sections : List String :=
    [base] ++
    (if constraints.length > 0 || decisions.length > 0 || heuristics.length > 0 then
      ["\n# Project Memory\n", formatMemoriesForContext constraints decisions heuristics]
     else []) ++
    (if constraints.length > 0 then
      ["\n**Important:** The constraints above are rules that MUST be followed."]
     else []) ++
    (if decisions.length > 0 then
      ["\nThe decisions above represent past choices made for this project. Consider them when giving advice, but they can be reconsidered if there" ++
        String.singleton apos ++ "s good reason."]
     else [])
  String.intercalate "\n" sections

/-- The loop body of `ContextBuilder.truncateHistory`, processing messages
from most recent to oldest (the input here is the reversed history) and
breaking at the first message that no longer fits. -/
def truncateLoop (maxTokens : Nat) : List Message → Nat → List Message
  | [], _ => []
  | msg :: rest, totalTokens =>
    let msgTokens := estimateTokens msg.content
    if totalTokens + msgTokens ≤ maxTokens then
      truncateLoop maxTokens rest (totalTokens + msgTokens) ++ [msg]
    else []

/-- `ContextBuilder.truncateHistory`: keep whole messages, newest first,
until the running token estimate would exceed the budget. -/
def truncateHistory (history : List Message) (maxTokens : Nat) : List Message :=
  truncateLoop maxTokens history.reverse 0

/-- The options record of `ContextBuilder.build`. -/
structure BuildOptions where
  includeMemory : Bool := true
  forceHeuristics : Option Bool := none

/-- `BuiltContext` from src/context/builder.ts. -/
structure BuiltContext where
  messages : List Message
  tokenEstimate : Nat
  constraintsIncluded : Nat
  decisionsIncluded : Nat
  heuristicsIncluded : Nat
  wasAmbiguous : Bool

/-- `ContextBuilder.build`: retrieve memories (when enabled), compose the
system message, append the budget-truncated history, then the user prompt. -/
noncomputable def build (store : MemoryStore) (embedder : String → List ℝ)
    (config : ContextConfig) (userPrompt : String)
    (conversationHistory : List Message) (options : BuildOptions) : BuiltContext :=
  let retrieved :=
    if options.includeMemory then
      retrieveForContext store embedder userPrompt
        { maxDecisions := 5, maxHeuristics := 3,
          includeHeuristics := options.forceHeuristics }
    else ⟨[], [], [], false⟩
  let systemContent :=
    buildSystemPrompt retrieved.constraints retrieved.decisions retrieved.heuristics
  let truncatedHistory := truncateHistory conversationHistory config.conversationTokens
  let messages : List Message :=
    ⟨.system, systemContent⟩ :: (truncatedHistory ++ [⟨.user, userPrompt⟩])
  { messages := messages,
    tokenEstimate := (messages.map fun m => estimateTokens m.content).sum,
    constraintsIncluded := retrieved.constraints.length,
    decisionsIncluded := retrieved.decisions.length,
    heuristicsIncluded := retrieved.heuristics.length,
    wasAmbiguous := retrieved.isAmbiguous }

/-!
The fallback `SimpleEmbedder` (src/memory/embeddings.ts).  A JavaScript
string is modelled as its list of UTF-16 code units (`List Nat`): this is
exactly what `charCodeAt`, `length` and the whitespace classes see.
`toLowerCase` is modelled on the ASCII range, which is the only range the
hash pipeline treats non-uniformly.
-/

/-- The JavaScript whitespace class (`\s`, `String.prototype.trim`). -/
def isJsWs (n : Nat) : Bool :=
  n == 9 || n == 10 || n == 11 || n == 12 || n == 13 || n == 32 ||
  n == 160 || n == 5760 || (8192 ≤ n && n ≤ 8202) ||
  n == 8232 || n == 8233 || n == 8239 || n == 8287 || n == 12288 || n == 65279

/-- `toLowerCase` on one code unit (ASCII case mapping). -/
def jsLowerCode (n : Nat) : Nat := if 65 ≤ n && n ≤ 90 then n + 32 else n

/-- `text.toLowerCase()`. -/
def jsLowerText (text : List Nat) : List Nat := text.map jsLowerCode

/-- `text.trim()`: strip whitespace from both ends. -/
def jsTrimText (text : List Nat) : List Nat :=
  ((text.dropWhile isJsWs).reverse.dropWhile isJsWs).reverse

/-- The `normalized` value of `hashToEmbedding`: `text.toLowerCase().trim()`. -/
def normalizeText (text : List Nat) : List Nat := jsTrimText (jsLowerText text)

/-- `normalized.split(/\s+/)`: split on maximal whitespace runs. -/
def splitWords (l : List Nat) (acc : List Nat) : List (List Nat) :=
  match l with
  | [] => [acc.reverse]
  | c :: rest =>
    if isJsWs c then acc.reverse :: splitWords (rest.dropWhile isJsWs) []
    else splitWords rest (c :: acc)
termination_by l.length
decreasing_by
all_goals simp only [List.length_cons]
· exact Nat.lt_succ_of_le (List.dropWhile_sublist _).length_le
· exact Nat.lt_succ_self _

/-- Truncation of a JavaScript number to a signed 32-bit integer (`| 0`,
`&`, `<<` semantics). -/
def toInt32 (n : Int) : Int :=
  let m := n % 4294967296
  if 2147483648 ≤ m then m - 4294967296 else m

/-- One step of `simpleHash`: `hash = ((hash << 5) - hash) + char`
followed by `hash = hash & hash` (truncate to 32 bits; the shift itself is
already a 32-bit operation). -/
def simpleHashStep (hash : Int) (c : Nat) : Int :=
  toInt32 (toInt32 (hash * 32) - hash + c)

/-- `SimpleEmbedder.simpleHash`, followed by the `Math.abs` at its use site. -/
def simpleHash (word : List Nat) : Nat := (word.foldl simpleHashStep 0).natAbs

/-- `LOCAL_EMBEDDING_DIM` from src/memory/embeddings.ts. -/
def LOCAL_EMBEDDING_DIM : Nat := 384

/-- The initialisation loop of `hashToEmbedding`:
`embedding[i] = sin(i * 0.1 + length * 0.01) * 0.01`. -/
noncomputable def initEmbedding (len : Nat) : ℕ → ℝ :=
  fun i => Real.sin ((i : ℝ) * 0.1 + (len : ℝ) * 0.01) * 0.01

/-- `embedding[i] += v`. -/
noncomputable def bumpAt (e : ℕ → ℝ) (i : ℕ) (v : ℝ) : ℕ → ℝ :=
  Function.update e i (e i + v)

/-- The per-character accumulation loop of `hashToEmbedding`. -/
noncomputable def accumChar (dims : Nat) (e : ℕ → ℝ) (i charCode : Nat) :
    ℕ → ℝ :=
  let position := i % dims
  let e1 := bumpAt e position (Real.sin ((charCode : ℝ) * 0.1) * 0.1)
  let e2 := bumpAt e1 ((position + 1) % dims) (Real.cos ((charCode : ℝ) * 0.1) * 0.1)
  bumpAt e2 (charCode % dims) 0.05

/-- The word-level feature loop of `hashToEmbedding`. -/
noncomputable def accumWords (dims : Nat) (e : ℕ → ℝ)
    (words : List (List Nat)) : ℕ → ℝ :=
  words.foldl (fun acc w => bumpAt acc (simpleHash w % dims) 0.1) e

/-- `SimpleEmbedder.hashToEmbedding`: normalise the text, run the three
accumulation phases, then normalise the vector to unit length when its norm
is positive. -/
noncomputable def hashToEmbedding (text : List Nat) : List ℝ :=
  let dims := LOCAL_EMBEDDING_DIM
  let normalized := normalizeText text
  let e1 := normalized.enum.foldl (fun e ic => accumChar dims e ic.1 ic.2)
    (initEmbedding normalized.length)
  let e2 := accumWords dims e1 (splitWords normalized [])
  let norm := Real.sqrt (∑ i ∈ Finset.range dims, e2 i * e2 i)
  if norm > 0 then (List.range dims).map (fun i => e2 i / norm)
  else (List.range dims).map e2

/-- `SimpleEmbedder.embed(text)` is `hashToEmbedding(text)`. -/
noncomputable def simpleEmbed (text : List Nat) : List ℝ := hashToEmbedding text

/-!
Observation helpers, reachability, and the concrete stores used by
counterexamples and witnesses.
-/

/-- The `friction_score` column of the `memory_items` row with the given id
(regardless of the `active` flag). -/
def MemoryStore.frictionScoreOf (s : MemoryStore) (id : String) : Option ℝ :=
  (s.items.find? fun m => m.id == id).map MemoryItem.frictionScore

/-- The argument tuple of one `recordFrictionEvent` call (the generated id
and timestamp are part of the call, as they come from outside the store). -/
structure FrictionCall where
  eventId : String
  eventType : FrictionEventType
  delta : ℝ
  context : Option String
  now : Nat

/-- A sequence of `recordFrictionEvent` calls against one memory. -/
noncomputable def applyFrictionEvents (s : MemoryStore) (memoryId : String)
    (calls : List FrictionCall) : MemoryStore :=
  calls.foldl
    (fun st c => st.recordFrictionEvent c.eventId memoryId c.eventType c.delta c.context c.now)
    s

/-- The per-event clamped fold that the store actually computes for a
sequence of deltas starting from score 0. -/
noncomputable def clampedFold (deltas : List ℝ) : ℝ :=
  deltas.foldl (fun acc d => clampScore (acc + d)) 0

/-- Store states reachable from a fresh store by record creations,
`recordFrictionEvent` calls, and `applyFrictionDecay` calls with a positive
half-life. -/
inductive Reachable : MemoryStore → Prop
| init : Reachable initialStore
| addConstraint {s : MemoryStore} (id : String) (now : Nat)
    (input : CreateConstraintInput) (embedding : Option (List ℝ)) :
    Reachable s → Reachable (s.addConstraint id now input embedding).1
| addDecision {s : MemoryStore} (id : String) (now : Nat)
    (input : CreateDecisionInput) (embedding : Option (List ℝ)) :
    Reachable s → Reachable (s.addDecision id now input embedding).1
| addHeuristic {s : MemoryStore} (id : String) (now : Nat)
    (input : CreateHeuristicInput) (embedding : Option (List ℝ)) :
    Reachable s → Reachable (s.addHeuristic id now input embedding).1
| frictionEvent {s : MemoryStore} (eventId memoryId : String)
    (eventType : FrictionEventType) (delta : ℝ) (context : Option String)
    (now : Nat) :
    Reachable s → Reachable (s.recordFrictionEvent eventId memoryId eventType delta context now)
| decay {s : MemoryStore} (halfLifeDays : ℝ) (now : Nat) :
    0 < halfLifeDays → Reachable s →
    Reachable (s.applyFrictionDecay halfLifeDays now).1

/-- The token sum of a message list (`estimateTokens` over each content). -/
def tokList (l : List Message) : Nat :=
  (l.map fun m => estimateTokens m.content).sum

/-- A concrete active memory row with friction score 0. -/
def exItem : MemoryItem :=
  { id := "m", content := "x", context := none, source := .user,
    frictionScore := 0, createdAt := 0, updatedAt := 0, active := true,
    data := .constraintData none .warning }

/-- A store holding just `exItem`. -/
def exStore : MemoryStore := ⟨[exItem], [], []⟩

/-- A concrete soft-deleted (inactive) memory row. -/
def inactiveItem : MemoryItem :=
  { id := "m", content := "x", context := none, source := .user,
    frictionScore := 0, createdAt := 0, updatedAt := 0, active := false,
    data := .constraintData none .warning }

/-- A store whose only row is already inactive. -/
def inactiveStore : MemoryStore := ⟨[inactiveItem], [], []⟩

/-- The input of the constraint creation used by the invariant witness. -/
def exInput : CreateConstraintInput := { content := "Always validate input" }

/-- The row created by `addConstraint "c1"` at time 0 from `exInput`. -/
def exCreated : MemoryItem :=
  { id := "c1", content := "Always validate input", context := none,
    source := .user, frictionScore := 0, createdAt := 0, updatedAt := 0,
    active := true, data := .constraintData none .warning }

/-!
## Theorems
-/

/-- **C7.** `setEmbedding` rejects every vector whose length differs from the
store dimension 384 with a dimension-mismatch error (no state is produced, so
the stored embeddings are untouched), and succeeds on a vector of exactly 384
elements, storing that vector verbatim — neither truncated nor padded — while
leaving the memory rows and the event log unchanged. -/
theorem setEmbedding_dimension_spec (s : MemoryStore) (id : String) (v : List ℝ) :
    (v.length ≠ EMBEDDING_DIM →
      s.setEmbedding id v = Except.error ("Embedding dimension mismatch: expected "
        ++ toString EMBEDDING_DIM ++ ", got " ++ toString v.length))
    ∧ (v.length = EMBEDDING_DIM →
      ∃ s' : MemoryStore, s.setEmbedding id v = Except.ok s'
        ∧ s'.getEmbedding id = some v
        ∧ s'.items = s.items ∧ s'.events = s.events) := by
  constructor
  · intro h
    simp [MemoryStore.setEmbedding, h]
  · intro h
    refine ⟨{ s with
        embeddings := (s.embeddings.filter fun p => !(p.1 == id)) ++ [(id, v)] },
      ?_, ?_, rfl, rfl⟩
    · simp [MemoryStore.setEmbedding, h]
    · simp only [MemoryStore.getEmbedding, List.find?_append]
      have h1 : (s.embeddings.filter fun p => !(p.1 == id)).find? (fun p => p.1 == id)
          = none := by
        rw [List.find?_eq_none]
        intro x hx
        have hne := (List.mem_filter.mp hx).2
        simpa using hne
      rw [h1]
      simp [h]

/-- Witness for C7: the dimension check at a concrete length-384 vector. -/
theorem setEmbedding_dimension_witness :
    (∃ s' : MemoryStore,
      initialStore.setEmbedding "m1" (List.replicate 384 (0 : ℝ)) = Except.ok s'
        ∧ s'.getEmbedding "m1" = some (List.replicate 384 (0 : ℝ))
        ∧ s'.items = initialStore.items ∧ s'.events = initialStore.events)
    ∧ initialStore.setEmbedding "m1" [(0 : ℝ)]
        = Except.error ("Embedding dimension mismatch: expected "
            ++ toString EMBEDDING_DIM ++ ", got " ++ toString ([(0 : ℝ)].length)) :=
  ⟨(setEmbedding_dimension_spec initialStore "m1" _).2
      (by rw [List.length_replicate]; rfl),
    (setEmbedding_dimension_spec initialStore "m1" _).1 (by decide)⟩

/-- **C8.** For equal-length vectors, `cosineSimilarity` returns
`dot(a,b) / (|a| · |b|)` whenever both norms are nonzero, and returns
exactly 0 whenever either norm is 0 (its guard takes the zero branch instead
of dividing). -/
theorem cosineSimilarity_spec (a b : List ℝ) (hlen : a.length = b.length) :
    (Real.sqrt (dotOver a a) ≠ 0 → Real.sqrt (dotOver b b) ≠ 0 →
      cosineSimilarity a b
        = dotOver a b / (Real.sqrt (dotOver a a) * Real.sqrt (dotOver b b)))
    ∧ ((Real.sqrt (dotOver a a) = 0 ∨ Real.sqrt (dotOver b b) = 0) →
      cosineSimilarity a b = 0) := by
  have e3 : (∑ i ∈ Finset.range a.length, b.getD i 0 * b.getD i 0) = dotOver b b := by
    unfold dotOver
    rw [hlen]
  constructor
  · intro ha hb
    simp only [cosineSimilarity, dotOver] at *
    rw [e3, if_neg (mul_ne_zero ha hb)]
  · intro h
    have hz : Real.sqrt (dotOver a a) * Real.sqrt (dotOver b b) = 0 := by
      rcases h with h | h <;> simp [h]
    simp only [cosineSimilarity, dotOver] at *
    rw [e3, if_pos hz]

/-- Witness for C8: a nonzero pair and a zero-norm pair of length-1 vectors. -/
theorem cosineSimilarity_witness :
    cosineSimilarity [(1 : ℝ)] [(1 : ℝ)]
      = dotOver [(1 : ℝ)] [(1 : ℝ)]
        / (Real.sqrt (dotOver [(1 : ℝ)] [(1 : ℝ)])
            * Real.sqrt (dotOver [(1 : ℝ)] [(1 : ℝ)]))
    ∧ cosineSimilarity [(0 : ℝ)] [(1 : ℝ)] = 0 := by
  have h1 : dotOver [(1 : ℝ)] [(1 : ℝ)] = 1 := by simp [dotOver]
  have h0 : dotOver [(0 : ℝ)] [(0 : ℝ)] = 0 := by simp [dotOver]
  exact ⟨(cosineSimilarity_spec [(1 : ℝ)] [(1 : ℝ)] rfl).1
      (by rw [h1]; simp) (by rw [h1]; simp),
    (cosineSimilarity_spec [(0 : ℝ)] [(1 : ℝ)] rfl).2 (Or.inl (by rw [h0]; simp))⟩

/-- **C6 counterexample.** `delete` on an existing but already-inactive
record returns `true` (the `UPDATE ... WHERE id = ?` has no `active = 1`
guard, and SQLite counts every matched row), whereas the claim requires
`false` for an already-inactive record. -/
theorem delete_inactive_counterexample :
    inactiveItem.active = false
    ∧ inactiveItem ∈ inactiveStore.items
    ∧ (inactiveStore.delete "m" 1).2 = true := by
  refine ⟨rfl, ?_, rfl⟩
  simp [inactiveStore]

/-- **C6 (amended).** Soft delete sets the matching record's `active` flag to
`false`, and its boolean result is `true` exactly when a record with the
given id exists in the table — active or not; it returns `false` only when
the id is absent. -/
theorem delete_spec (s : MemoryStore) (id : String) (now : Nat) :
    (∀ m ∈ (s.delete id now).1.items, m.id = id → m.active = false)
    ∧ ((s.delete id now).2 = true ↔ ∃ m ∈ s.items, m.id = id) := by
  constructor
  · intro m hm hid
    simp only [MemoryStore.delete] at hm
    rcases List.mem_map.mp hm with ⟨m0, _, rfl⟩
    by_cases h : m0.id == id
    · simp [h]
    · rw [if_neg (by simpa using h)] at hid ⊢
      exact absurd hid (by simpa using h)
  · simp only [MemoryStore.delete, List.any_eq_true, beq_iff_eq]

/-- Witness for C6: deleting the active row of `exStore` flips its flag and
returns `true`. -/
theorem delete_spec_witness :
    ({ exItem with active := false, updatedAt := 1 } : MemoryItem).active = false
    ∧ (exStore.delete "m" 1).2 = true := by
  constructor
  · exact (delete_spec exStore "m" 1).1
      { exItem with active := false, updatedAt := 1 }
      (by simp [MemoryStore.delete, exStore, exItem]) rfl
  · exact (delete_spec exStore "m" 1).2.mpr ⟨exItem, by simp [exStore], rfl⟩

/-- `recordFrictionEvent` maps the observed score of the target memory
through one clamped addition. -/
theorem recordFrictionEvent_scoreOf (s : MemoryStore) (eventId memoryId : String)
    (et : FrictionEventType) (delta : ℝ) (ctx : Option String) (now : Nat) :
    (s.recordFrictionEvent eventId memoryId et delta ctx now).frictionScoreOf memoryId
      = (s.frictionScoreOf memoryId).map fun x => clampScore (x + delta) := by
  simp only [MemoryStore.recordFrictionEvent, MemoryStore.frictionScoreOf]
  rw [List.find?_map]
  have hp : ((fun m : MemoryItem => m.id == memoryId) ∘ fun m : MemoryItem =>
      if m.id == memoryId then
        { m with frictionScore := clampScore (m.frictionScore + delta), updatedAt := now }
      else m) = fun m : MemoryItem => m.id == memoryId := by
    funext m
    by_cases h : m.id = memoryId <;> simp [h]
  rw [hp]
  rcases hf : s.items.find? (fun m => m.id == memoryId) with _ | m
  · rw [hf]
    simp
  · rw [hf]
    have hm : m.id = memoryId := by simpa using List.find?_some hf
    simp [hm]

/-- Folding a call sequence through `recordFrictionEvent` folds the observed
score through per-event clamped additions. -/
theorem applyFrictionEvents_scoreOf (memoryId : String) :
    ∀ (calls : List FrictionCall) (s : MemoryStore) (x : ℝ),
      s.frictionScoreOf memoryId = some x →
      (applyFrictionEvents s memoryId calls).frictionScoreOf memoryId
        = some ((calls.map FrictionCall.delta).foldl (fun acc d => clampScore (acc + d)) x) := by
  intro calls
  induction calls with
  | nil =>
    intro s x h
    simpa [applyFrictionEvents] using h
  | cons c rest ih =>
    intro s x h
    have h1 := recordFrictionEvent_scoreOf s c.eventId memoryId c.eventType c.delta
      c.context c.now
    rw [h] at h1
    have h2 := ih (s.recordFrictionEvent c.eventId memoryId c.eventType c.delta
      c.context c.now) (clampScore (x + c.delta)) (by simpa using h1)
    simpa [applyFrictionEvents] using h2

/-- The clamp keeps every value inside `[-10, 10]`. -/
theorem clampScore_bounds (x : ℝ) : -10 ≤ clampScore x ∧ clampScore x ≤ 10 := by
  unfold clampScore
  exact ⟨le_max_left _ _, max_le (by norm_num) (min_le_left _ _)⟩

/-- The per-event clamped fold never leaves `[-10, 10]`. -/
theorem clampedFold_bounds (deltas : List ℝ) :
    -10 ≤ clampedFold deltas ∧ clampedFold deltas ≤ 10 := by
  suffices h : ∀ (l : List ℝ) (x : ℝ), -10 ≤ x → x ≤ 10 →
      -10 ≤ l.foldl (fun acc d => clampScore (acc + d)) x
      ∧ l.foldl (fun acc d => clampScore (acc + d)) x ≤ 10 by
    exact h deltas 0 (by norm_num) (by norm_num)
  intro l
  induction l with
  | nil => intro x h1 h2; exact ⟨h1, h2⟩
  | cons d rest ih =>
    intro x h1 h2
    simpa using ih (clampScore (x + d)) (clampScore_bounds _).1 (clampScore_bounds _).2

/-- **C1 counterexample.** Starting from score 0 and applying the deltas
20 and −5 through `recordFrictionEvent`, the stored score is 5 (each event is
clamped as it is applied), while the claimed `clamp(sum of deltas)` is 10. -/
theorem friction_clamp_of_sum_counterexample :
    exStore.frictionScoreOf "m" = some 0
    ∧ (applyFrictionEvents exStore "m"
        [⟨"e1", .acceptance, 20, none, 1⟩, ⟨"e2", .correction, -5, none, 2⟩]).frictionScoreOf "m"
      = some 5
    ∧ clampScore (20 + -5) = 10
    ∧ (5 : ℝ) ≠ 10 := by
  have h0 : exStore.frictionScoreOf "m" = some 0 := by
    simp [MemoryStore.frictionScoreOf, exStore, exItem]
  refine ⟨h0, ?_, ?_, by norm_num⟩
  · rw [applyFrictionEvents_scoreOf "m" _ exStore 0 h0]
    norm_num [clampScore, min_def, max_def]
  · norm_num [clampScore, min_def, max_def]

/-- **C1 (amended).** For a memory starting at score 0, any sequence of
`recordFrictionEvent` calls leaves its `frictionScore` equal to the
left-to-right fold of `clamp(score + delta, -10, 10)` over the deltas — the
clamp applies per event, not once to the raw sum — and this value always
lies inside `[-10, 10]`. -/
theorem friction_fold_spec (s : MemoryStore) (memoryId : String)
    (calls : List FrictionCall)
    (h0 : s.frictionScoreOf memoryId = some 0) :
    (applyFrictionEvents s memoryId calls).frictionScoreOf memoryId
      = some (clampedFold (calls.map FrictionCall.delta))
    ∧ -10 ≤ clampedFold (calls.map FrictionCall.delta)
    ∧ clampedFold (calls.map FrictionCall.delta) ≤ 10 :=
  ⟨applyFrictionEvents_scoreOf memoryId calls s 0 h0,
    (clampedFold_bounds _).1, (clampedFold_bounds _).2⟩

/-- Witness for C1 (amended): one concrete event with delta 3 on `exStore`. -/
theorem friction_fold_witness :
    (applyFrictionEvents exStore "m" [⟨"e1", .acceptance, 3, none, 1⟩]).frictionScoreOf "m"
      = some (clampedFold [(3 : ℝ)])
    ∧ -10 ≤ clampedFold [(3 : ℝ)] ∧ clampedFold [(3 : ℝ)] ≤ 10 := by
  have h := friction_fold_spec exStore "m" [⟨"e1", .acceptance, 3, none, 1⟩]
    (by simp [MemoryStore.frictionScoreOf, exStore, exItem])
  simpa using h

/-- **C3.** The `constraints` field of `retrieveForContext` is exactly
`getAllConstraints`, i.e. exactly the active constraint rows of the store —
for every prompt, embedder and option set, with no similarity filtering. -/
theorem constraints_complete (store : MemoryStore) (embedder : String → List ℝ)
    (prompt : String) (options : ContextRetrievalOptions) :
    (retrieveForContext store embedder prompt options).constraints
      = store.getAllConstraints
    ∧ ∀ m : MemoryItem,
        m ∈ (retrieveForContext store embedder prompt options).constraints
          ↔ m ∈ store.items ∧ m.type = .constraint ∧ m.active = true := by
  refine ⟨rfl, fun m => ?_⟩
  show m ∈ store.getAllConstraints ↔ _
  rw [MemoryStore.getAllConstraints, MemoryStore.getByType, List.mem_mergeSort,
    List.mem_filter]
  simp [and_assoc]

/-- A successful `setEmbedding` only changes the `memory_embeddings` table. -/
theorem setEmbedding_items {s s' : MemoryStore} {id : String} {v : List ℝ}
    (h : s.setEmbedding id v = .ok s') : s'.items = s.items := by
  unfold MemoryStore.setEmbedding at h
  split at h
  · cases h
  · cases h
    rfl

/-- The rows after `addConstraint` are the old rows plus the freshly created
row. -/
theorem addConstraint_items (s : MemoryStore) (id : String) (now : Nat)
    (input : CreateConstraintInput) (embedding : Option (List ℝ)) :
    (s.addConstraint id now input embedding).1.items
      = s.items ++ [mkConstraintItem id now input] := by
  rcases embedding with _ | v
  · rfl
  · simp only [MemoryStore.addConstraint]
    rcases h : MemoryStore.setEmbedding
        { s with items := s.items ++ [mkConstraintItem id now input] } id v with e | s''
    · rfl
    · exact setEmbedding_items h

/-- The rows after `addDecision` are the old rows plus the fresh row. -/
theorem addDecision_items (s : MemoryStore) (id : String) (now : Nat)
    (input : CreateDecisionInput) (embedding : Option (List ℝ)) :
    (s.addDecision id now input embedding).1.items
      = s.items ++ [mkDecisionItem id now input] := by
  rcases embedding with _ | v
  · rfl
  · simp only [MemoryStore.addDecision]
    rcases h : MemoryStore.setEmbedding
        { s with items := s.items ++ [mkDecisionItem id now input] } id v with e | s''
    · rfl
    · exact setEmbedding_items h

/-- The rows after `addHeuristic` are the old rows plus the fresh row. -/
theorem addHeuristic_items (s : MemoryStore) (id : String) (now : Nat)
    (input : CreateHeuristicInput) (embedding : Option (List ℝ)) :
    (s.addHeuristic id now input embedding).1.items
      = s.items ++ [mkHeuristicItem id now input] := by
  rcases embedding with _ | v
  · rfl
  · simp only [MemoryStore.addHeuristic]
    rcases h : MemoryStore.setEmbedding
        { s with items := s.items ++ [mkHeuristicItem id now input] } id v with e | s''
    · rfl
    · exact setEmbedding_items h

/-- **C5.** In every reachable store state — after any sequence of record
creations (score 0), `recordFrictionEvent` calls, and `applyFrictionDecay`
calls with positive half-life — every row's `frictionScore` lies in
`[-10, 10]`. -/
theorem friction_invariant (s : MemoryStore) (hs : Reachable s) :
    ∀ m ∈ s.items, -10 ≤ m.frictionScore ∧ m.frictionScore ≤ 10 := by
  induction hs with
  | init =>
    intro m hm
    cases hm
  | addConstraint id now input embedding _ ih =>
    intro m hm
    rw [addConstraint_items] at hm
    rcases List.mem_append.mp hm with h | h
    · exact ih m h
    · rw [List.mem_singleton.mp h]
      exact ⟨by norm_num [mkConstraintItem], by norm_num [mkConstraintItem]⟩
  | addDecision id now input embedding _ ih =>
    intro m hm
    rw [addDecision_items] at hm
    rcases List.mem_append.mp hm with h | h
    · exact ih m h
    · rw [List.mem_singleton.mp h]
      exact ⟨by norm_num [mkDecisionItem], by norm_num [mkDecisionItem]⟩
  | addHeuristic id now input embedding _ ih =>
    intro m hm
    rw [addHeuristic_items] at hm
    rcases List.mem_append.mp hm with h | h
    · exact ih m h
    · rw [List.mem_singleton.mp h]
      exact ⟨by norm_num [mkHeuristicItem], by norm_num [mkHeuristicItem]⟩
  | frictionEvent eventId memoryId eventType delta context now _ ih =>
    intro m hm
    simp only [MemoryStore.recordFrictionEvent] at hm
    rcases List.mem_map.mp hm with ⟨m0, hm0, rfl⟩
    by_cases h : m0.id = memoryId
    · simp only [h, beq_self_eq_true, if_true]
      exact clampScore_bounds _
    · have hb : (m0.id == memoryId) = false := by simpa using h
      simp only [hb, Bool.false_eq_true, if_false]
      exact ih m0 hm0
  | decay halfLifeDays now hpos _ ih =>
    intro m hm
    simp only [MemoryStore.applyFrictionDecay] at hm
    rcases List.mem_map.mp hm with ⟨m0, hm0, rfl⟩
    have hf0 : (0 : ℝ) ≤ (0.5 : ℝ) ^ ((1 : ℝ) / halfLifeDays) :=
      Real.rpow_nonneg (by norm_num) _
    have hf1 : (0.5 : ℝ) ^ ((1 : ℝ) / halfLifeDays) ≤ 1 :=
      Real.rpow_le_one (by norm_num) (by norm_num) (le_of_lt (by positivity))
    obtain ⟨ih1, ih2⟩ := ih m0 hm0
    by_cases h : m0.frictionScore ≠ 0
    · rw [if_pos h]
      constructor <;> nlinarith
    · rw [if_neg h]
      exact ⟨ih1, ih2⟩

/-- Witness for C5: the row created by one `addConstraint` on a fresh store
is reachable and satisfies the bounds. -/
theorem friction_invariant_witness :
    -10 ≤ exCreated.frictionScore ∧ exCreated.frictionScore ≤ 10 :=
  friction_invariant _ (Reachable.addConstraint "c1" 0 exInput none Reachable.init)
    exCreated (by
      rw [addConstraint_items]
      simp [initialStore, mkConstraintItem, exCreated, exInput])

/-- **C4.** `retrieveForContext` fills its `heuristics` field by heuristic
retrieval (`retrieve` with kind `heuristic`, `minSimilarity` 0.35, limit
`maxHeuristics`) exactly when the override is `true`, or the override is not
`false` and the prompt triggers `detectsAmbiguity`; in every other case the
field is `[]`. -/
theorem heuristics_gating (store : MemoryStore) (embedder : String → List ℝ)
    (prompt : String) (options : ContextRetrievalOptions) :
    ((options.includeHeuristics = some true
        ∨ (options.includeHeuristics ≠ some false ∧ detectsAmbiguity prompt = true)) →
      (retrieveForContext store embedder prompt options).heuristics
        = retrieve store embedder prompt
            { type := some [.heuristic], limit := options.maxHeuristics,
              minSimilarity := 0.35, includeFriction := true })
    ∧ (¬(options.includeHeuristics = some true
        ∨ (options.includeHeuristics ≠ some false ∧ detectsAmbiguity prompt = true)) →
      (retrieveForContext store embedder prompt options).heuristics = []) := by
  have key : (((options.includeHeuristics == some true)
      || (options.includeHeuristics != some false && detectsAmbiguity prompt)) = true)
      ↔ (options.includeHeuristics = some true
        ∨ (options.includeHeuristics ≠ some false ∧ detectsAmbiguity prompt = true)) := by
    simp [Bool.or_eq_true, Bool.and_eq_true]
  constructor
  · intro h
    show (if ((options.includeHeuristics == some true)
        || (options.includeHeuristics != some false && detectsAmbiguity prompt)) then
          retrieveHeuristics store embedder prompt options.maxHeuristics
        else []) = _
    rw [if_pos (key.mpr h)]
    rfl
  · intro h
    show (if ((options.includeHeuristics == some true)
        || (options.includeHeuristics != some false && detectsAmbiguity prompt)) then
          retrieveHeuristics store embedder prompt options.maxHeuristics
        else []) = []
    rw [if_neg (fun hc => h (key.mp hc))]

/-- Witness for C4: an ambiguous prompt with no override triggers heuristic
retrieval on a fresh store. -/
theorem heuristics_gating_witness :
    (retrieveForContext initialStore (fun _ => []) "Should I use X or Y?"
        { maxDecisions := 5, maxHeuristics := 3, includeHeuristics := none }).heuristics
      = retrieve initialStore (fun _ => []) "Should I use X or Y?"
          { type := some [.heuristic], limit := 3, minSimilarity := 0.35,
            includeFriction := true } :=
  (heuristics_gating initialStore (fun _ => []) "Should I use X or Y?"
      { maxDecisions := 5, maxHeuristics := 3, includeHeuristics := none }).1
    (Or.inr ⟨by decide, by decide⟩)

/-- `mergeSort` by a real-valued key, with the comparator
`fun a b => decide (f b ≤ f a)`, sorts descending by that key. -/
theorem sorted_mergeSort_key {α : Type _} (f : α → ℝ) (l : List α) :
    List.Sorted (fun a b => f b ≤ f a) (l.mergeSort fun a b => decide (f b ≤ f a)) := by
  have h := @List.sorted_mergeSort α (fun a b : α => decide (f b ≤ f a))
    (fun a b c hab hbc => by
      simp only [decide_eq_true_eq] at *
      exact le_trans hbc hab)
    (fun a b => by
      simp only [Bool.or_eq_true, decide_eq_true_eq]
      exact le_total (f b) (f a))
    l
  exact h.imp fun hab => by simpa using hab

/-- **C2.** Every result of `retrieve` has similarity at least
`minSimilarity`; its `adjustedScore` is `similarity * (1 + 0.5·tanh(friction/3))`
when friction adjustment is enabled and the raw similarity otherwise; each
result comes from the `vectorSearch` over-fetch with limit `limit * 3`; the
result list is sorted descending by `adjustedScore` and has length at most
`limit`. -/
theorem retrieve_spec (store : MemoryStore) (embedder : String → List ℝ)
    (query : String) (options : RetrievalOptions) :
    List.Forall (fun r : RetrievalResult =>
        options.minSimilarity ≤ r.similarity
        ∧ r.adjustedScore = (if options.includeFriction then
            applyFrictionModifier r.similarity r.memory.frictionScore
          else r.similarity)
        ∧ ({ memory := r.memory, similarity := r.similarity } : SearchHit)
            ∈ store.vectorSearch (embedder query)
                { limit := options.limit * 3, types := options.type })
      (retrieve store embedder query options)
    ∧ List.Sorted (fun a b : RetrievalResult => b.adjustedScore ≤ a.adjustedScore)
        (retrieve store embedder query options)
    ∧ (retrieve store embedder query options).length ≤ options.limit := by
  refine ⟨?_, ?_, ?_⟩
  · rw [List.forall_iff_forall_mem]
    intro r hr
    simp only [retrieve] at hr
    have hr1 := List.mem_of_mem_take hr
    rw [List.mem_mergeSort] at hr1
    rcases List.mem_map.mp hr1 with ⟨c, hc, rfl⟩
    have hc1 := List.mem_filter.mp hc
    exact ⟨of_decide_eq_true hc1.2, rfl, hc1.1⟩
  · simp only [retrieve]
    exact List.Pairwise.sublist (List.take_sublist _ _)
      (sorted_mergeSort_key (fun r : RetrievalResult => r.adjustedScore) _)
  · simp only [retrieve]
    exact List.length_take_le _ _

/-- Dropping messages can only lower the token sum. -/
theorem tokList_drop_le (l : List Message) (n : Nat) :
    tokList (l.drop n) ≤ tokList l := by
  conv_rhs => rw [← List.take_append_drop n l]
  simp only [tokList, List.map_append, List.sum_append]
  exact Nat.le_add_left _ _

/-- The reversal-based loop of `truncateHistory` returns the reversal of a
prefix of its input: the longest prefix whose accumulated token count stays
within the budget, stopping at the first element that would exceed it. -/
theorem truncateLoop_spec (b : Nat) :
    ∀ (r : List Message) (t : Nat),
      ∃ k, k ≤ r.length ∧ truncateLoop b r t = (r.take k).reverse
        ∧ (k = 0 ∨ t + tokList (r.take k) ≤ b)
        ∧ (k = r.length ∨ b < t + tokList (r.take (k + 1))) := by
  intro r
  induction r with
  | nil =>
    intro t
    exact ⟨0, le_refl 0, rfl, Or.inl rfl, Or.inl rfl⟩
  | cons msg rest ih =>
    intro t
    by_cases hfit : t + estimateTokens msg.content ≤ b
    · obtain ⟨k, hk, heq, hc2, hc3⟩ := ih (t + estimateTokens msg.content)
      refine ⟨k + 1, by simpa using Nat.succ_le_succ hk, ?_, ?_, ?_⟩
      · simp [truncateLoop, if_pos hfit, heq, List.take_succ_cons]
      · right
        rw [List.take_succ_cons]
        have ht : tokList (msg :: rest.take k)
            = estimateTokens msg.content + tokList (rest.take k) := by
          simp [tokList]
        rw [ht]
        rcases hc2 with h0 | hle
        · subst h0
          simp only [List.take_zero, tokList, List.map_nil, List.sum_nil]
          omega
        · omega
      · rcases hc3 with hlen | hover
        · left
          simp [hlen]
        · right
          rw [List.take_succ_cons]
          have ht : tokList (msg :: rest.take (k + 1))
              = estimateTokens msg.content + tokList (rest.take (k + 1)) := by
            simp [tokList]
          rw [ht]
          omega
    · refine ⟨0, Nat.zero_le _, ?_, Or.inl rfl, Or.inr ?_⟩
      · simp [truncateLoop, if_neg hfit]
      · have ht : tokList ((msg :: rest).take 1)
            = estimateTokens msg.content := by
          simp [tokList]
        rw [ht]
        omega

/-- **C9.** `truncateHistory` keeps a suffix of the history (the newest
messages, whole messages only): its result is a suffix whose token sum fits
the budget, and it is the longest such suffix — the walk from newest to
oldest stops exactly at the first message that would push the running
estimate over the budget.  `build` places this suffix between the system
message and the final user message. -/
theorem truncate_build_spec (store : MemoryStore) (embedder : String → List ℝ)
    (config : ContextConfig) (userPrompt : String) (history : List Message)
    (options : BuildOptions) (b : Nat) :
    truncateHistory history b <:+ history
    ∧ tokList (truncateHistory history b) ≤ b
    ∧ (∀ s : List Message, s <:+ history → tokList s ≤ b →
        s.length ≤ (truncateHistory history b).length)
    ∧ (∃ sys : String,
        (build store embedder config userPrompt history options).messages
          = ⟨Role.system, sys⟩
            :: (truncateHistory history config.conversationTokens
                ++ [⟨Role.user, userPrompt⟩])) := by
  obtain ⟨k, hk, heq, hc2, hc3⟩ := truncateLoop_spec b history.reverse 0
  rw [List.length_reverse] at hk
  have hrev : ∀ n ≤ history.length,
      (history.reverse.take n).reverse = history.drop (history.length - n) := by
    intro n _
    rw [List.reverse_take]
    simp
  have htok : ∀ l : List Message, tokList l.reverse = tokList l := by
    intro l
    simp only [tokList]
    rw [List.map_reverse, List.sum_reverse]
  have hmain : truncateHistory history b = history.drop (history.length - k) := by
    rw [truncateHistory, heq, hrev k hk]
  have hlen_t : (truncateHistory history b).length = k := by
    rw [truncateHistory, heq, List.length_reverse, List.length_take,
      List.length_reverse]
    omega
  refine ⟨?_, ?_, ?_, ⟨_, rfl⟩⟩
  · rw [hmain]
    exact List.drop_suffix _ _
  · rcases hc2 with h0 | hle
    · subst h0
      rw [truncateHistory, heq]
      simp [tokList]
    · have h1 : tokList (truncateHistory history b)
          = tokList (history.reverse.take k) := by
        rw [truncateHistory, heq, htok]
      omega
  · intro s hs hts
    by_contra hgt
    push_neg at hgt
    rw [hlen_t] at hgt
    have hsl : s.length ≤ history.length := hs.length_le
    rcases hc3 with hklen | hover
    · rw [List.length_reverse] at hklen
      omega
    · have hk1 : k + 1 ≤ history.length := by omega
      have hrev1 : (history.reverse.take (k + 1)).reverse
          = history.drop (history.length - (k + 1)) := hrev (k + 1) hk1
      have htok1 : tokList (history.reverse.take (k + 1))
          = tokList (history.drop (history.length - (k + 1))) := by
        rw [← hrev1, htok]
      have hs_eq : s = history.drop (history.length - s.length) :=
        List.suffix_iff_eq_drop.mp hs
      have hdd : history.drop (history.length - (k + 1))
          = (history.drop (history.length - s.length)).drop
              ((history.length - (k + 1)) - (history.length - s.length)) := by
        rw [List.drop_drop]
        congr 1
        omega
      rw [← hs_eq] at hdd
      have hfinal : tokList (history.drop (history.length - (k + 1)))
          ≤ tokList s := by
        rw [hdd]
        exact tokList_drop_le _ _
      omega

/-- Witness for C9: with budget 1 only the newest message (1 token) is kept,
and the suffix `[newest]` attains the maximal length. -/
theorem truncate_build_witness :
    ([⟨Role.user, "bbbb"⟩] : List Message).length
      ≤ (truncateHistory [⟨Role.assistant, "aaaaaaaa"⟩, ⟨Role.user, "bbbb"⟩] 1).length :=
  (truncate_build_spec initialStore (fun _ => []) DEFAULT_CONTEXT_CONFIG "q"
      [⟨Role.assistant, "aaaaaaaa"⟩, ⟨Role.user, "bbbb"⟩] {} 1).2.2.1
    [⟨Role.user, "bbbb"⟩] ⟨[⟨Role.assistant, "aaaaaaaa"⟩], rfl⟩ (by decide)

/-- ASCII lower-casing of code units is idempotent. -/
theorem jsLowerCode_idem (n : Nat) : jsLowerCode (jsLowerCode n) = jsLowerCode n := by
  by_cases h : 65 ≤ n ∧ n ≤ 90
  · have h1 : jsLowerCode n = n + 32 := by
      unfold jsLowerCode
      rw [if_pos (by simpa using h)]
    rw [h1]
    unfold jsLowerCode
    rw [if_neg (by simp only [Bool.and_eq_true, decide_eq_true_eq]; omega)]
  · have h1 : jsLowerCode n = n := by
      unfold jsLowerCode
      rw [if_neg (by simpa using h)]
    rw [h1]
    exact h1

/-- Lower-casing never changes whether a code unit is whitespace. -/
theorem isJsWs_lower (n : Nat) : isJsWs (jsLowerCode n) = isJsWs n := by
  unfold jsLowerCode
  by_cases h : 65 ≤ n ∧ n ≤ 90
  · rw [if_pos (by simpa using h)]
    obtain ⟨h1, h2⟩ := h
    interval_cases n <;> decide
  · rw [if_neg (by simpa using h)]

/-- `toLowerCase` is idempotent. -/
theorem jsLowerText_idem (l : List Nat) :
    jsLowerText (jsLowerText l) = jsLowerText l := by
  simp only [jsLowerText, List.map_map]
  congr 1
  funext n
  simp [Function.comp, jsLowerCode_idem]

/-- `trim` and `toLowerCase` commute. -/
theorem jsTrim_lower_comm (l : List Nat) :
    jsTrimText (jsLowerText l) = jsLowerText (jsTrimText l) := by
  have hpf : (isJsWs ∘ jsLowerCode) = isJsWs := funext isJsWs_lower
  simp only [jsTrimText, jsLowerText]
  rw [List.dropWhile_map, hpf, ← List.map_reverse, List.dropWhile_map, hpf,
    ← List.map_reverse]

/-- `jsTrimText` is left-trim followed by `rdropWhile` (right-trim). -/
theorem jsTrimText_eq (l : List Nat) :
    jsTrimText l = List.rdropWhile isJsWs (l.dropWhile isJsWs) := by
  simp [jsTrimText, List.rdropWhile]

/-- `trim` is idempotent. -/
theorem jsTrimText_idem (l : List Nat) :
    jsTrimText (jsTrimText l) = jsTrimText l := by
  rw [jsTrimText_eq l, jsTrimText_eq]
  have hdw : (List.rdropWhile isJsWs (l.dropWhile isJsWs)).dropWhile isJsWs
      = List.rdropWhile isJsWs (l.dropWhile isJsWs) := by
    obtain ⟨t, ht⟩ := List.rdropWhile_prefix isJsWs (l.dropWhile isJsWs)
    cases hy2 : List.rdropWhile isJsWs (l.dropWhile isJsWs) with
    | nil => simp
    | cons a y' =>
      rw [hy2] at ht
      have hx : List.dropWhile isJsWs (l.dropWhile isJsWs) = l.dropWhile isJsWs :=
        List.dropWhile_idempotent _ _
      have hxa : l.dropWhile isJsWs = a :: (y' ++ t) := by
        rw [← ht]
        simp
      cases hpa : isJsWs a with
      | false =>
        rw [List.dropWhile_cons, if_neg (by simp [hpa])]
      | true =>
        exfalso
        rw [hxa, List.dropWhile_cons, if_pos hpa] at hx
        have hlen := congrArg List.length hx
        simp only [List.length_cons] at hlen
        have hle : (List.dropWhile isJsWs (y' ++ t)).length ≤ (y' ++ t).length :=
          (List.dropWhile_sublist _).length_le
        omega
  rw [hdw, List.rdropWhile_idempotent]

/-- The `normalized` value computed by `hashToEmbedding` is a fixed point of
lower-casing-then-trimming: feeding it the already normalised text yields the
same normalised text. -/
theorem normalizeText_fix (l : List Nat) :
    normalizeText (jsLowerText (jsTrimText l)) = normalizeText l := by
  unfold normalizeText
  rw [jsLowerText_idem, jsTrim_lower_comm, jsTrimText_idem]
  exact (jsTrim_lower_comm l).symm

/-- **C10.** The fallback embedder satisfies
`embed(s) = embed(lowercase(trim(s)))`: its output is invariant under letter
case and under leading/trailing whitespace, because the hash pipeline only
ever sees `text.toLowerCase().trim()`. -/
theorem simpleEmbed_normalization_invariant (text : List Nat) :
    simpleEmbed text = simpleEmbed (jsLowerText (jsTrimText text)) := by
  simp only [simpleEmbed, hashToEmbedding]
  rw [normalizeText_fix]

end DeepContext
